import Mathlib

/-!
Verification of StorageMeter (src/StorageMeter/StorageMeter.cpp), a storage
write-throughput benchmark.  The development shallowly embeds the benchmark
core: the random block generator (InitPortionWithRandomData), the timed file
writer (WriteTestFile), the block-size calibrator (TestDriveWriteFirst), the
throughput formula (CalculateSpeed), and the thread-count sweep with its
stopping rule (TestDriveWrite).  Machine floats are modelled as exact
rationals, file-system and clock behaviour as an explicit environment, and
the unbounded while loop as a fuel-indexed step function.
-/

namespace StorageMeter

/-- Mirrors `constexpr uint32_t g_portionSize = 104857600` (100 MiB). -/
def g_portionSize : ℕ := 104857600

/-- Mirrors `constexpr uint32_t g_portionsCount = 10`. -/
def g_portionsCount : ℕ := 10

/-- Mirrors `constexpr float g_maxTestDuration = 2.0`, as an exact rational. -/
def g_maxTestDuration : ℚ := 2

/-- Mirrors `constexpr uint8_t g_maxSlowTests = 2`. -/
def g_maxSlowTests : ℕ := 2

/-- Mirrors `sizeof(decltype(rand()))`: rand() returns `int`, 4 bytes on the
target (MSVC x86/x64) platform. -/
def sizeOfRand : ℕ := 4

/-- Byte `j` of the block after the fill loop of InitPortionWithRandomData,
which stores whole rand() words little-endian:
`reinterpret_cast<int&>(portion[i * sizeOfRand]) = rand()`.
`rng i` is the value returned by the i-th call to rand(). -/
def randByte (rng : ℕ → ℕ) (j : ℕ) : ℕ :=
  rng (j / sizeOfRand) / 256 ^ (j % sizeOfRand) % 256

/-- Byte index `j` is written by some iteration `i` of the fill loop
`for (i = 0; i < g_portionSize / sizeOfRand; ++i)` of
InitPortionWithRandomData, iteration `i` writing bytes
`[sizeOfRand * i, sizeOfRand * i + sizeOfRand)`. -/
def coveredByFillLoop (j : ℕ) : Prop :=
  ∃ i, i < g_portionSize / sizeOfRand ∧ sizeOfRand * i ≤ j ∧ j < sizeOfRand * i + sizeOfRand

/-- Byte `j` of the portion after InitPortionWithRandomData: `resize` zero
fills, then the loop overwrites byte `j` exactly when its word index
`j / sizeOfRand` is one of the iterated indices. -/
def portionAfterInit (rng : ℕ → ℕ) (j : ℕ) : ℕ :=
  if j / sizeOfRand < g_portionSize / sizeOfRand then randByte rng j else 0

/-- The whole portion produced by InitPortionWithRandomData.  The function
takes no size parameter: the length is always the constant g_portionSize. -/
def initPortion (rng : ℕ → ℕ) : List ℕ :=
  (List.range g_portionSize).map (portionAfterInit rng)

/-- The portion size left behind by TestDriveWriteFirst, given the size of the
portion before calibration and the elapsed nanoseconds of the single-threaded
trial.  Mirrors lines 92-97 of the source: float arithmetic is modelled as
exact rational arithmetic, and `static_cast<size_t>` of a nonnegative value
truncates, i.e. takes the floor. -/
def testDriveWriteFirstPortionSize (size elapsedNs : ℕ) : ℕ :=
  let firstWriteTimeSeconds : ℚ := (elapsedNs : ℚ) / (1000 * 1000 * 1000)
  if firstWriteTimeSeconds > g_maxTestDuration then
    (⌊g_maxTestDuration / firstWriteTimeSeconds * size⌋).toNat
  else size

/-- Mirrors CalculateSpeed: the byte count `size * g_portionsCount * N` is
divided by 1024 twice in integer arithmetic before the cast to float, then
divided by the elapsed seconds `ns / 1e9`. -/
def calculateSpeed (portionSize threadsCount ns : ℕ) : ℚ :=
  ((portionSize * g_portionsCount * threadsCount / 1024 / 1024 : ℕ) : ℚ)
    / ((ns : ℚ) / 1000 / 1000 / 1000)

/-- Modelled from the spec (section 4.4): the aggregate throughput
`(BlockSize_bytes * RepeatCount * N) / averageElapsedSeconds` in bytes per
second, converted to MB/s.  Stated for refinement comparison with
`calculateSpeed`, which is taken from the source. -/
def specAggregateThroughputMBs (portionSize threadsCount ns : ℕ) : ℚ :=
  (((portionSize * g_portionsCount * threadsCount : ℕ) : ℚ)
    / ((ns : ℚ) / (1000 * 1000 * 1000))) / (1024 * 1024)

/-- The mutable locals of the sweep loop of TestDriveWrite:
`uint8_t slowTests`, `size_t threadsCount` and `float lastSpeed`
(slowTests never exceeds 2, so `uint8_t` overflow cannot occur and ℕ is a
faithful model). -/
structure SweepState where
  slowTests : ℕ
  threadsCount : ℕ
  lastSpeed : ℚ
deriving DecidableEq

/-- Outcome of one concurrent trial at a given thread count: either some
writer thread threw (the `bad` flag was set) or all threads succeeded and the
trial computed an aggregate speed. -/
inductive TrialResult where
  | fail : TrialResult
  | ok (speed : ℚ) : TrialResult
deriving DecidableEq

/-- Lines 181-191 of the source, run after a successful trial:
increment slowTests on a strict regression, else reset it to 0; then
unconditionally record the current speed and advance the thread count. -/
def updateAfterTrial (st : SweepState) (currentSpeed : ℚ) : SweepState :=
  { slowTests := if currentSpeed < st.lastSpeed then st.slowTests + 1 else 0
    threadsCount := st.threadsCount + 1
    lastSpeed := currentSpeed }

/-- The sweep loop `while (slowTests < g_maxSlowTests)` of TestDriveWrite,
indexed by fuel: `some r` means the loop finished with return value `r`
within that many iterations, `none` that the fuel ran out.  A trial outcome
of `.fail` models the `bad` flag set by a throwing writer thread, upon which
the function returns the current thread count; normal exit returns
`threadsCount - 1`. -/
def sweepLoop (trial : ℕ → TrialResult) : ℕ → SweepState → Option ℕ
  | 0, _ => none
  | fuel + 1, st =>
    if st.slowTests < g_maxSlowTests then
      match trial st.threadsCount with
      | .fail => some st.threadsCount
      | .ok speed => sweepLoop trial fuel (updateAfterTrial st speed)
    else
      some (st.threadsCount - 1)

/-- TestDriveWrite after its calibration phase: the sweep starts with
`slowTests = 0`, `threadsCount = 2` and `lastSpeed` equal to the speed of the
single-threaded calibration trial. -/
def testDriveWrite (trial : ℕ → TrialResult) (firstSpeed : ℚ) (fuel : ℕ) : Option ℕ :=
  sweepLoop trial fuel ⟨0, 2, firstSpeed⟩

/-- An all-successful trial oracle: the trial at thread count `k` reports the
synthetic speed `v k`. -/
def okTrial (v : ℕ → ℚ) : ℕ → TrialResult := fun k => .ok (v k)

/-- The sweep state after `i` successful trials, when trial `k` reports speed
`v k` and the calibration trial reported `v 1`. -/
def sweepStates (v : ℕ → ℚ) : ℕ → SweepState
  | 0 => ⟨0, 2, v 1⟩
  | i + 1 => updateAfterTrial (sweepStates v i) (v (2 + i))

/-- Scenario C of the spec: trials at thread counts 2 and 3 observe 90 and
80 MB/s (the calibration trial at 1 thread observed 100 MB/s). -/
def scenarioC_trial : ℕ → TrialResult := fun n =>
  if n = 2 then .ok 90 else if n = 3 then .ok 80 else .ok 0

/-- Scenario D of the spec: a writer thread of the trial at thread count 4
throws a file-open error; earlier trials succeed at a steady 100 MB/s. -/
def scenarioD_trial : ℕ → TrialResult := fun n =>
  if n = 4 then .fail else .ok 100

/-- A strictly decreasing synthetic speed sequence. -/
def decSpeeds : ℕ → ℚ := fun n => 100 - (n : ℚ)

/-- Environment WriteTestFile runs against: whether fopen_s fails (and with
which errno), how many elements the i-th fwrite transfers, and the stopwatch
clock readings (reading 0 at Start, reading 1 at Stop), in nanoseconds. -/
structure DiskEnv where
  openErr : Option ℕ
  fwriteRes : ℕ → ℕ
  clock : ℕ → ℤ

/-- The message thrown by WriteTestFile when fwrite number `i` transfers
fewer elements than requested. -/
def shortWriteMsg (i : ℕ) (path : String) : String :=
  "Failed to write portion " ++ toString i ++ " to file " ++ path

/-- The message thrown by WriteTestFile when fopen_s fails. -/
def openFailMsg (path : String) (e : ℕ) : String :=
  "Failed to create file " ++ path ++ ", errno=" ++ toString e

/-- The fwrite loop of WriteTestFile: starting at portion index `i` with `k`
portions left, write the portion once per iteration, aborting with the
short-write message at the first fwrite that does not transfer a full
portion.  On success returns the number of bytes written. -/
def runWrites (path : String) (size : ℕ) (fw : ℕ → ℕ) : ℕ → ℕ → Except String ℕ
  | _, 0 => .ok 0
  | i, k + 1 =>
    if fw i = size then
      match runWrites path size fw (i + 1) k with
      | .ok b => .ok (size + b)
      | .error e => .error e
    else
      .error (shortWriteMsg i path)

/-- WriteTestFile: open the file (throwing on failure), write the portion
g_portionsCount times (throwing on the first short write), and on success
return the bytes written together with the stopwatch duration
`clock 1 - clock 0`. -/
def writeTestFile (env : DiskEnv) (path : String) (size : ℕ) : Except String (ℕ × ℤ) :=
  match env.openErr with
  | some e => .error (openFailMsg path e)
  | none =>
    match runWrites path size env.fwriteRes 0 g_portionsCount with
    | .error msg => .error msg
    | .ok bytes => .ok (bytes, env.clock 1 - env.clock 0)

/-- The observable events of one WriteTestFile call, in program order. -/
inductive FileEvent where
  | fopenCall : FileEvent
  | clockStart : FileEvent
  | fwriteCall (i : ℕ) : FileEvent
  | clockStop : FileEvent
  | fcloseCall : FileEvent
  | throwRuntimeError : FileEvent
deriving DecidableEq

/-- Event trace of the fwrite loop and its sequel: each iteration emits its
fwrite; after the last one the watch is stopped and then the file closed; a
short write closes the file and throws. -/
def writeEvents (size : ℕ) (fw : ℕ → ℕ) : ℕ → ℕ → List FileEvent
  | _, 0 => [.clockStop, .fcloseCall]
  | i, k + 1 =>
    .fwriteCall i ::
      (if fw i = size then writeEvents size fw (i + 1) k
       else [.fcloseCall, .throwRuntimeError])

/-- Event trace of a WriteTestFile call, following the statement order of
lines 62-85 of the source: fopen, stopwatch start, the fwrite loop, stopwatch
stop, fclose. -/
def writeTestFileTrace (env : DiskEnv) (size : ℕ) : List FileEvent :=
  match env.openErr with
  | some _ => [.fopenCall, .throwRuntimeError]
  | none => .fopenCall :: .clockStart :: writeEvents size env.fwriteRes 0 g_portionsCount

/-- Position of the first occurrence of event `e` in trace `t`. -/
def eventPos (t : List FileEvent) (e : FileEvent) : ℕ :=
  t.findIdx (fun x => decide (x = e))

/-- The trace of a fully successful WriteTestFile call. -/
def stdWriteTrace : List FileEvent :=
  FileEvent.fopenCall :: FileEvent.clockStart ::
    ((List.range g_portionsCount).map FileEvent.fwriteCall
      ++ [FileEvent.clockStop, FileEvent.fcloseCall])

/-- An environment where fopen succeeds, every fwrite transfers exactly one
element, and all clock readings are 0. -/
def allGoodEnv : DiskEnv :=
  { openErr := none, fwriteRes := fun _ => 1, clock := fun _ => 0 }

/-- C1 (counterexample): in Scenario C, with speeds 100, 90, 80 MB/s at
thread counts 1, 2, 3, TestDriveWrite does not report 2. -/
theorem scenarioC_not_two : testDriveWrite scenarioC_trial 100 10 ≠ some 2 := by decide

/-- C1 (amended): in Scenario C the sweep stops after the trial at thread
count 3 and TestDriveWrite reports max threads tested = 3, the last thread
count actually tried (threadsCount was incremented to 4, and the function
returns threadsCount - 1). -/
theorem scenarioC_reports_three : testDriveWrite scenarioC_trial 100 10 = some 3 := by decide

/-- C4: whenever the trial at the current thread count fails (the bad flag is
set by a throwing writer thread) and the loop guard admitted the trial, the
sweep returns that thread count itself, not one less. -/
theorem failing_trial_returns_own_count (trial : ℕ → TrialResult) (fuel : ℕ)
    (st : SweepState) (hslow : st.slowTests < g_maxSlowTests)
    (hfail : trial st.threadsCount = .fail) :
    sweepLoop trial (fuel + 1) st = some st.threadsCount := by
  simp [sweepLoop, hslow, hfail]

/-- Witness for C4: Scenario D, the trial at thread count 4 fails, so the
sweep reports 4. -/
theorem failing_trial_returns_own_count_witness :
    sweepLoop scenarioD_trial 6 ⟨0, 4, 100⟩ = some 4 :=
  failing_trial_returns_own_count scenarioD_trial 5 ⟨0, 4, 100⟩ (by decide) rfl

/-- C5: after a successful trial, slowTests is incremented when the trial
speed is strictly below lastSpeed and reset to 0 otherwise, lastSpeed is
unconditionally set to the trial speed, and one iteration of the sweep loop
performs exactly this update. -/
theorem slowTests_update_rule (trial : ℕ → TrialResult) (fuel : ℕ)
    (st : SweepState) (speed : ℚ) :
    (updateAfterTrial st speed).slowTests
        = (if speed < st.lastSpeed then st.slowTests + 1 else 0)
      ∧ (updateAfterTrial st speed).lastSpeed = speed
      ∧ (st.slowTests < g_maxSlowTests → trial st.threadsCount = .ok speed →
          sweepLoop trial (fuel + 1) st = sweepLoop trial fuel (updateAfterTrial st speed)) := by
  refine ⟨rfl, rfl, fun hslow hok => ?_⟩
  simp [sweepLoop, hslow, hok]

/-- Witness for C5: first iteration of Scenario C, speed 90 against
lastSpeed 100. -/
theorem slowTests_update_rule_witness :
    (updateAfterTrial ⟨0, 2, 100⟩ 90).slowTests = 1
      ∧ (updateAfterTrial ⟨0, 2, 100⟩ 90).lastSpeed = 90
      ∧ sweepLoop scenarioC_trial 4 ⟨0, 2, 100⟩
          = sweepLoop scenarioC_trial 3 (updateAfterTrial ⟨0, 2, 100⟩ 90) := by
  obtain ⟨h1, h2, h3⟩ := slowTests_update_rule scenarioC_trial 3 ⟨0, 2, 100⟩ 90
  refine ⟨?_, h2, h3 (by decide) rfl⟩
  rw [h1]
  norm_num

/-- Helper: a natural division casts to an exact rational division precisely
when the divisor divides the dividend. -/
theorem natCast_div_eq_div_iff (a b : ℕ) (hb : 0 < b) :
    ((a / b : ℕ) : ℚ) = (a : ℚ) / b ↔ b ∣ a := by
  have hbQ : ((b : ℚ)) ≠ 0 := Nat.cast_ne_zero.mpr hb.ne'
  constructor
  · intro hcast
    have hmul : ((a / b : ℕ) : ℚ) * b = a := by rw [hcast]; field_simp
    have hnat : a / b * b = a := by exact_mod_cast hmul
    exact ⟨a / b, by rw [mul_comm]; exact hnat.symm⟩
  · intro hdvd
    exact Nat.cast_div hdvd hbQ

/-- C2: calibration never enlarges the block; it resizes the block to
floor(size * (2.0 / elapsedSeconds)) exactly when the elapsed time strictly
exceeds 2.0 seconds and leaves it unchanged otherwise (including elapsed 0);
Scenario B: 4.0 s at size 100 calibrates to 50. -/
theorem calibration_shrinks_iff (size ns : ℕ) :
    testDriveWriteFirstPortionSize size ns ≤ size
      ∧ testDriveWriteFirstPortionSize size ns =
          (if g_maxTestDuration < (ns : ℚ) / (1000 * 1000 * 1000) then
            (⌊(size : ℚ) * (g_maxTestDuration / ((ns : ℚ) / (1000 * 1000 * 1000)))⌋).toNat
          else size)
      ∧ testDriveWriteFirstPortionSize 100 4000000000 = 50 := by
  refine ⟨?_, ?_, ?_⟩
  · unfold testDriveWriteFirstPortionSize
    simp only
    split
    · rename_i h
      have h2pos : (0 : ℚ) < g_maxTestDuration := by norm_num [g_maxTestDuration]
      have hpos : (0 : ℚ) < (ns : ℚ) / (1000 * 1000 * 1000) := lt_trans h2pos h
      have h1 : g_maxTestDuration / ((ns : ℚ) / (1000 * 1000 * 1000)) ≤ 1 := by
        rw [div_le_one hpos]
        exact le_of_lt h
      have hle : g_maxTestDuration / ((ns : ℚ) / (1000 * 1000 * 1000)) * size ≤ (size : ℚ) := by
        calc g_maxTestDuration / ((ns : ℚ) / (1000 * 1000 * 1000)) * size
            ≤ 1 * size := mul_le_mul_of_nonneg_right h1 (Nat.cast_nonneg _)
          _ = (size : ℚ) := one_mul _
      have hfloor : ⌊g_maxTestDuration / ((ns : ℚ) / (1000 * 1000 * 1000)) * size⌋ ≤ (size : ℤ) := by
        have := Int.floor_le_floor hle
        rwa [Int.floor_natCast] at this
      exact Int.toNat_le.mpr hfloor
    · exact le_rfl
  · unfold testDriveWriteFirstPortionSize
    simp only
    by_cases h : g_maxTestDuration < (ns : ℚ) / (1000 * 1000 * 1000)
    · rw [if_pos h, if_pos h, mul_comm]
    · rw [if_neg h, if_neg h]
  · unfold testDriveWriteFirstPortionSize
    norm_num [g_maxTestDuration]
    decide

/-- C9: calibration can truncate the block size to zero bytes (a 300 s
single-threaded trial on a 100-byte block yields size 0), and the calibrated
size is never negative. -/
theorem calibration_can_reach_zero :
    testDriveWriteFirstPortionSize 100 300000000000 = 0
      ∧ ∀ size ns : ℕ, g_maxTestDuration < (ns : ℚ) / (1000 * 1000 * 1000) →
          0 ≤ ⌊g_maxTestDuration / ((ns : ℚ) / (1000 * 1000 * 1000)) * size⌋ := by
  constructor
  · unfold testDriveWriteFirstPortionSize
    norm_num [g_maxTestDuration]
  · intro size ns h
    have h2pos : (0 : ℚ) < g_maxTestDuration := by norm_num [g_maxTestDuration]
    have hpos : (0 : ℚ) < (ns : ℚ) / (1000 * 1000 * 1000) := lt_trans h2pos h
    exact Int.floor_nonneg.mpr
      (mul_nonneg (div_nonneg h2pos.le hpos.le) (Nat.cast_nonneg _))

/-- Witness for C9: a 3 s trial gives a nonnegative floor. -/
theorem calibration_can_reach_zero_witness :
    0 ≤ ⌊g_maxTestDuration / (((3000000000 : ℕ) : ℚ) / (1000 * 1000 * 1000)) * ((100 : ℕ) : ℚ)⌋ :=
  calibration_can_reach_zero.2 100 3000000000 (by norm_num [g_maxTestDuration])

/-- C3 (counterexample): at block size 1 byte, 1 thread and 1 s average
duration, CalculateSpeed reports 0 MB/s while the exact byte throughput
converted to MB/s is 10 / 2^20: the integer division to whole MiB before the
float cast loses the fractional part. -/
theorem calculateSpeed_truncation_counterexample :
    calculateSpeed 1 1 1000000000 ≠ specAggregateThroughputMBs 1 1 1000000000 := by
  unfold calculateSpeed specAggregateThroughputMBs
  norm_num [g_portionsCount]

/-- C3 (amended): the reported aggregate throughput equals the
integer-truncated MiB count floor(size * 10 * N / 2^20) divided by the
average seconds, and it agrees with the exact
(bytes / averageSeconds) / 2^20 formula precisely when 2^20 divides the byte
count size * 10 * N. -/
theorem calculateSpeed_floor_characterization (S N ns : ℕ) (h : 0 < ns) :
    calculateSpeed S N ns
        = ((S * g_portionsCount * N / (1024 * 1024) : ℕ) : ℚ) * (1000 * 1000 * 1000) / ns
      ∧ (calculateSpeed S N ns = specAggregateThroughputMBs S N ns
          ↔ (1024 * 1024) ∣ S * g_portionsCount * N) := by
  have hns : ((ns : ℚ)) ≠ 0 := Nat.cast_ne_zero.mpr h.ne'
  have e1 : ((ns : ℚ) / 1000 / 1000 / 1000) = (ns : ℚ) / 1000000000 := by
    rw [div_div, div_div]
    norm_num
  have e2 : ((ns : ℚ) / (1000 * 1000 * 1000)) = (ns : ℚ) / 1000000000 := by norm_num
  have hsec : ((ns : ℚ) / 1000000000) ≠ 0 := div_ne_zero hns (by norm_num)
  constructor
  · unfold calculateSpeed
    rw [Nat.div_div_eq_div_mul, e1]
    field_simp
    left
    norm_num
  · unfold calculateSpeed specAggregateThroughputMBs
    rw [Nat.div_div_eq_div_mul, e1, e2]
    rw [div_right_comm (((S * g_portionsCount * N : ℕ) : ℚ)) ((ns : ℚ) / 1000000000) (1024 * 1024)]
    constructor
    · intro hh
      have hcast : ((S * g_portionsCount * N / (1024 * 1024) : ℕ) : ℚ)
          = ((S * g_portionsCount * N : ℕ) : ℚ) / (1024 * 1024) :=
        mul_right_cancel₀ hsec ((div_eq_div_iff hsec hsec).mp hh)
      have := (natCast_div_eq_div_iff (S * g_portionsCount * N) (1024 * 1024) (by norm_num)).mp
      apply this
      rw [hcast]
      norm_num
    · intro hdvd
      have hcast := (natCast_div_eq_div_iff (S * g_portionsCount * N) (1024 * 1024)
        (by norm_num)).mpr hdvd
      rw [hcast]
      norm_num

/-- Witness for C3 (amended): a 1 MiB block, 1 thread, 1 s average. -/
theorem calculateSpeed_floor_characterization_witness :
    calculateSpeed 1048576 1 1000000000
        = ((1048576 * g_portionsCount * 1 / (1024 * 1024) : ℕ) : ℚ) * (1000 * 1000 * 1000) / ((1000000000 : ℕ) : ℚ)
      ∧ (calculateSpeed 1048576 1 1000000000 = specAggregateThroughputMBs 1048576 1 1000000000
          ↔ (1024 * 1024) ∣ 1048576 * g_portionsCount * 1) :=
  calculateSpeed_floor_characterization 1048576 1 1000000000 (by norm_num)

/-- C10: block generation takes no size parameter and always produces
exactly g_portionSize = 104857600 bytes; since that is a multiple of the
4-byte rand() word, every byte of the block is assigned by the fill loop,
leaving no unfilled tail. -/
theorem fill_loop_covers_block (rng : ℕ → ℕ) (j : ℕ) (hj : j < g_portionSize) :
    g_portionSize = 104857600
      ∧ g_portionSize % sizeOfRand = 0
      ∧ (initPortion rng).length = g_portionSize
      ∧ coveredByFillLoop j
      ∧ portionAfterInit rng j = randByte rng j := by
  have hdvd : sizeOfRand ∣ g_portionSize := by decide
  have hj4 : j / sizeOfRand < g_portionSize / sizeOfRand :=
    Nat.div_lt_div_of_lt_of_dvd hdvd hj
  refine ⟨rfl, by decide, ?_, ?_, ?_⟩
  · simp [initPortion]
  · refine ⟨j / sizeOfRand, hj4, ?_, ?_⟩
    · simp only [sizeOfRand]
      omega
    · simp only [sizeOfRand]
      omega
  · unfold portionAfterInit
    rw [if_pos hj4]

/-- Witness for C10: byte 0 of the block is covered and carries rand() data. -/
theorem fill_loop_covers_block_witness :
    coveredByFillLoop 0 ∧ portionAfterInit (fun _ => 0) 0 = randByte (fun _ => 0) 0 := by
  have h := fill_loop_covers_block (fun _ => 0) 0 (by norm_num [g_portionSize])
  exact ⟨h.2.2.2.1, h.2.2.2.2⟩

/-- Helper: if every fwrite starting at portion index i transfers a full
portion, the write loop succeeds and writes size * k bytes. -/
theorem runWrites_ok_of_all (path : String) (size : ℕ) (fw : ℕ → ℕ) :
    ∀ k i, (∀ j, j < k → fw (i + j) = size) →
      runWrites path size fw i k = .ok (size * k) := by
  intro k
  induction k with
  | zero => intro i _; rfl
  | succ k ih =>
    intro i hall
    have h0 : fw i = size := by simpa using hall 0 (Nat.succ_pos k)
    have hrest : ∀ j, j < k → fw (i + 1 + j) = size := by
      intro j hj
      have h1 := hall (j + 1) (Nat.succ_lt_succ hj)
      have heq : i + 1 + j = i + (j + 1) := by omega
      rw [heq]
      exact h1
    unfold runWrites
    rw [if_pos h0, ih (i + 1) hrest]
    simp [Nat.mul_succ, Nat.add_comm]

/-- Helper: the write loop fails with the message naming the first portion
index whose fwrite came up short. -/
theorem runWrites_error_first (path : String) (size : ℕ) (fw : ℕ → ℕ) :
    ∀ k i j, j < k → (∀ l, l < j → fw (i + l) = size) → fw (i + j) ≠ size →
      runWrites path size fw i k = .error (shortWriteMsg (i + j) path) := by
  intro k
  induction k with
  | zero => intro i j hj; omega
  | succ k ih =>
    intro i j hj hprev hbad
    cases j with
    | zero =>
      unfold runWrites
      rw [if_neg (by simpa using hbad)]
      simp
    | succ m =>
      have h0 : fw i = size := by simpa using hprev 0 (Nat.succ_pos m)
      have hprev' : ∀ l, l < m → fw (i + 1 + l) = size := by
        intro l hl
        have h1 := hprev (l + 1) (Nat.succ_lt_succ hl)
        have heq : i + 1 + l = i + (l + 1) := by omega
        rw [heq]
        exact h1
      have hbad' : fw (i + 1 + m) ≠ size := by
        have heq : i + 1 + m = i + (m + 1) := by omega
        rw [heq]
        exact hbad
      unfold runWrites
      rw [if_pos h0, ih (i + 1) m (Nat.lt_of_succ_lt_succ hj) hprev' hbad']
      have heq : i + 1 + m = i + (m + 1) := by omega
      rw [heq]

/-- Helper: a successful write loop means every fwrite in range was full. -/
theorem runWrites_ok_all (path : String) (size : ℕ) (fw : ℕ → ℕ) :
    ∀ k i b, runWrites path size fw i k = .ok b → ∀ j, j < k → fw (i + j) = size := by
  intro k
  induction k with
  | zero => intro i b _ j hj; omega
  | succ k ih =>
    intro i b hok j hj
    unfold runWrites at hok
    by_cases h0 : fw i = size
    · rw [if_pos h0] at hok
      cases j with
      | zero => simpa using h0
      | succ m =>
        cases hrec : runWrites path size fw (i + 1) k with
        | error e => rw [hrec] at hok; exact absurd hok (by simp)
        | ok b' =>
          have h1 := ih (i + 1) b' hrec m (Nat.lt_of_succ_lt_succ hj)
          have heq : i + (m + 1) = i + 1 + m := by omega
          rw [heq]
          exact h1
    · rw [if_neg h0] at hok
      exact absurd hok (by simp)

/-- C6: WriteTestFile raises an error exactly when the file cannot be opened
or some fwrite transfers fewer bytes than requested; on success it writes
exactly size * g_portionsCount bytes and returns the stopwatch duration,
which is nonnegative for a monotone clock; a short write aborts with the
message naming the first failing portion index. -/
theorem writeTestFile_error_iff (env : DiskEnv) (path : String) (size : ℕ) :
    ((∃ msg, writeTestFile env path size = .error msg) ↔
        (env.openErr ≠ none ∨ ∃ i, i < g_portionsCount ∧ env.fwriteRes i ≠ size))
      ∧ (env.openErr = none → (∀ i, i < g_portionsCount → env.fwriteRes i = size) →
          writeTestFile env path size = .ok (size * g_portionsCount, env.clock 1 - env.clock 0))
      ∧ (∀ b d, env.clock 0 ≤ env.clock 1 → writeTestFile env path size = .ok (b, d) → 0 ≤ d)
      ∧ (∀ i, env.openErr = none → i < g_portionsCount →
          (∀ j, j < i → env.fwriteRes j = size) → env.fwriteRes i ≠ size →
          writeTestFile env path size = .error (shortWriteMsg i path)) := by
  have hsucc : env.openErr = none → (∀ i, i < g_portionsCount → env.fwriteRes i = size) →
      writeTestFile env path size = .ok (size * g_portionsCount, env.clock 1 - env.clock 0) := by
    intro hopen hall
    unfold writeTestFile
    rw [hopen]
    rw [runWrites_ok_of_all path size env.fwriteRes g_portionsCount 0 (by simpa using hall)]
  have hshort : ∀ i, env.openErr = none → i < g_portionsCount →
      (∀ j, j < i → env.fwriteRes j = size) → env.fwriteRes i ≠ size →
      writeTestFile env path size = .error (shortWriteMsg i path) := by
    intro i hopen hi hprev hbad
    unfold writeTestFile
    rw [hopen]
    rw [runWrites_error_first path size env.fwriteRes g_portionsCount 0 i hi
      (by simpa using hprev) (by simpa using hbad)]
    simp
  refine ⟨?_, hsucc, ?_, hshort⟩
  · constructor
    · rintro ⟨msg, hmsg⟩
      by_cases hopen : env.openErr = none
      · by_cases hall : ∀ i, i < g_portionsCount → env.fwriteRes i = size
        · rw [hsucc hopen hall] at hmsg
          exact absurd hmsg (by simp)
        · push_neg at hall
          exact Or.inr hall
      · exact Or.inl hopen
    · rintro (hopen | ⟨i, hi, hbad⟩)
      · cases h : env.openErr with
        | none => exact absurd h hopen
        | some e =>
          refine ⟨openFailMsg path e, ?_⟩
          unfold writeTestFile
          rw [h]
      · by_cases hopen : env.openErr = none
        · have hex : ∃ n, env.fwriteRes n ≠ size := ⟨i, hbad⟩
          have hfind : env.fwriteRes (Nat.find hex) ≠ size := Nat.find_spec hex
          have hfle : Nat.find hex ≤ i := Nat.find_min' hex hbad
          have hprev : ∀ j, j < Nat.find hex → env.fwriteRes j = size := fun j hj =>
            not_not.mp (Nat.find_min hex hj)
          exact ⟨shortWriteMsg (Nat.find hex) path,
            hshort (Nat.find hex) hopen (lt_of_le_of_lt hfle hi) hprev hfind⟩
        · cases h : env.openErr with
          | none => exact absurd h hopen
          | some e =>
            refine ⟨openFailMsg path e, ?_⟩
            unfold writeTestFile
            rw [h]
  · intro b d hclock hok
    unfold writeTestFile at hok
    cases h : env.openErr with
    | some e => rw [h] at hok; exact absurd hok (by simp)
    | none =>
      rw [h] at hok
      cases hrec : runWrites path size env.fwriteRes 0 g_portionsCount with
      | error e => rw [hrec] at hok; exact absurd hok (by simp)
      | ok bytes =>
        rw [hrec] at hok
        simp only [Except.ok.injEq, Prod.mk.injEq] at hok
        omega

/-- Witness for C6: the all-good environment at block size 1 writes 10 bytes
with a zero duration. -/
theorem writeTestFile_error_iff_witness :
    writeTestFile allGoodEnv "f" 1 = .ok (1 * g_portionsCount, allGoodEnv.clock 1 - allGoodEnv.clock 0) :=
  (writeTestFile_error_iff allGoodEnv "f" 1).2.1 rfl (fun _ _ => rfl)

/-- Helper: when every fwrite is full, the loop trace is the fwrites in
order, then the stopwatch stop, then the fclose. -/
theorem writeEvents_all_ok (size : ℕ) (fw : ℕ → ℕ) :
    ∀ k i, (∀ j, j < k → fw (i + j) = size) →
      writeEvents size fw i k
        = (List.range' i k).map FileEvent.fwriteCall
            ++ [FileEvent.clockStop, FileEvent.fcloseCall] := by
  intro k
  induction k with
  | zero => intro i _; simp [writeEvents]
  | succ k ih =>
    intro i hall
    have h0 : fw i = size := by simpa using hall 0 (Nat.succ_pos k)
    have hrest : ∀ j, j < k → fw (i + 1 + j) = size := by
      intro j hj
      have h1 := hall (j + 1) (Nat.succ_lt_succ hj)
      have heq : i + 1 + j = i + (j + 1) := by omega
      rw [heq]
      exact h1
    unfold writeEvents
    rw [if_pos h0, ih (i + 1) hrest, List.range'_succ]
    simp

/-- C7 (counterexample): in a successful WriteTestFile call the stopwatch is
not still running when the file is closed: fclose does not occur before the
stopwatch stop reading, so the returned duration cannot cover the fclose. -/
theorem fclose_not_inside_stopwatch :
    ¬ (eventPos (writeTestFileTrace allGoodEnv 1) FileEvent.fcloseCall
        < eventPos (writeTestFileTrace allGoodEnv 1) FileEvent.clockStop) := by decide

/-- C7 (amended): on every successful invocation the trace runs fopen, clock
start, the g_portionsCount fwrites, clock stop, fclose, in that order: the
duration covers the interval from just before the first write to just after
the last write, the stopwatch being stopped before the file is closed. -/
theorem stopwatch_stops_before_fclose (env : DiskEnv) (size : ℕ)
    (hopen : env.openErr = none)
    (hw : ∀ i, i < g_portionsCount → env.fwriteRes i = size) :
    writeTestFileTrace env size = stdWriteTrace
      ∧ eventPos stdWriteTrace FileEvent.clockStart
          < eventPos stdWriteTrace (FileEvent.fwriteCall 0)
      ∧ eventPos stdWriteTrace (FileEvent.fwriteCall (g_portionsCount - 1))
          < eventPos stdWriteTrace FileEvent.clockStop
      ∧ eventPos stdWriteTrace FileEvent.clockStop
          < eventPos stdWriteTrace FileEvent.fcloseCall := by
  refine ⟨?_, by decide, by decide, by decide⟩
  unfold writeTestFileTrace
  rw [hopen]
  rw [writeEvents_all_ok size env.fwriteRes g_portionsCount 0 (by simpa using hw)]
  unfold stdWriteTrace
  rw [List.range_eq_range']

/-- Witness for C7 (amended): the all-good environment at block size 1. -/
theorem stopwatch_stops_before_fclose_witness :
    writeTestFileTrace allGoodEnv 1 = stdWriteTrace :=
  (stopwatch_stops_before_fclose allGoodEnv 1 rfl (fun _ _ => rfl)).1

/-- Helper: a sweep that finishes within some fuel finishes, with the same
result, within any larger fuel. -/
theorem sweepLoop_mono (trial : ℕ → TrialResult) :
    ∀ fuel fuel' st r, fuel ≤ fuel' → sweepLoop trial fuel st = some r →
      sweepLoop trial fuel' st = some r := by
  intro fuel
  induction fuel with
  | zero => intro fuel' st r _ h; simp [sweepLoop] at h
  | succ fuel ih =>
    intro fuel' st r hle h
    cases fuel' with
    | zero => omega
    | succ fuel2 =>
      unfold sweepLoop at h ⊢
      by_cases hslow : st.slowTests < g_maxSlowTests
      · rw [if_pos hslow] at h ⊢
        cases htr : trial st.threadsCount with
        | fail => rw [htr] at h; exact h
        | ok speed => rw [htr] at h; exact ih fuel2 _ r (Nat.le_of_succ_le_succ hle) h
      · rw [if_neg hslow] at h ⊢
        exact h

/-- Helper: one successful loop iteration consumes one unit of fuel and
performs the updateAfterTrial transition. -/
theorem sweepLoop_succ_ok (trial : ℕ → TrialResult) (fuel : ℕ) (st : SweepState) (speed : ℚ)
    (hslow : st.slowTests < g_maxSlowTests) (hok : trial st.threadsCount = .ok speed) :
    sweepLoop trial (fuel + 1) st = sweepLoop trial fuel (updateAfterTrial st speed) := by
  simp [sweepLoop, hslow, hok]

/-- Helper: the thread count of the i-th sweep state is 2 + i. -/
theorem sweepStates_threadsCount (v : ℕ → ℚ) :
    ∀ i, (sweepStates v i).threadsCount = 2 + i := by
  intro i
  induction i with
  | zero => rfl
  | succ i ih =>
    show (updateAfterTrial (sweepStates v i) (v (2 + i))).threadsCount = 2 + (i + 1)
    unfold updateAfterTrial
    simp only
    omega

/-- Helper: the lastSpeed of the i-th sweep state is the speed of the last
trial run, v (i + 1). -/
theorem sweepStates_lastSpeed (v : ℕ → ℚ) :
    ∀ i, (sweepStates v i).lastSpeed = v (i + 1) := by
  intro i
  cases i with
  | zero => rfl
  | succ i =>
    show (updateAfterTrial (sweepStates v i) (v (2 + i))).lastSpeed = v (i + 1 + 1)
    unfold updateAfterTrial
    simp only
    have heq : 2 + i = i + 1 + 1 := by omega
    rw [heq]

/-- Helper: one-step recurrence of the consecutive-regression counter along
an all-successful sweep. -/
theorem sweepStates_slow_succ (v : ℕ → ℚ) (i : ℕ) :
    (sweepStates v (i + 1)).slowTests
      = if v (i + 2) < v (i + 1) then (sweepStates v i).slowTests + 1 else 0 := by
  show (updateAfterTrial (sweepStates v i) (v (2 + i))).slowTests = _
  unfold updateAfterTrial
  simp only
  rw [sweepStates_lastSpeed v i]
  have heq : 2 + i = i + 2 := Nat.add_comm 2 i
  rw [heq]

/-- Helper: while no state has hit the slow-test limit, running the sweep
from the start is running it from the i-th state, with i fuel consumed. -/
theorem sweepLoop_advance (v : ℕ → ℚ) :
    ∀ i, (∀ j, j < i → (sweepStates v j).slowTests < g_maxSlowTests) →
      ∀ fuel, sweepLoop (okTrial v) (i + fuel) (sweepStates v 0)
        = sweepLoop (okTrial v) fuel (sweepStates v i) := by
  intro i
  induction i with
  | zero =>
    intro _ fuel
    rw [Nat.zero_add]
  | succ i ih =>
    intro hall fuel
    have hstep : sweepLoop (okTrial v) (fuel + 1) (sweepStates v i)
        = sweepLoop (okTrial v) fuel (sweepStates v (i + 1)) :=
      sweepLoop_succ_ok (okTrial v) fuel (sweepStates v i) (v (2 + i))
        (hall i (Nat.lt_succ_self i))
        (by simp only [okTrial]; rw [sweepStates_threadsCount v i])
    have heq : i + 1 + fuel = i + (fuel + 1) := by omega
    rw [heq, ih (fun j hj => hall j (Nat.lt_succ_of_lt hj)) (fuel + 1), hstep]

/-- Helper: once the slow-test limit is reached the loop exits at once,
returning threadsCount - 1. -/
theorem sweepLoop_exit (trial : ℕ → TrialResult) (st : SweepState)
    (h : ¬ st.slowTests < g_maxSlowTests) (fuel : ℕ) :
    sweepLoop trial (fuel + 1) st = some (st.threadsCount - 1) := by
  unfold sweepLoop
  rw [if_neg h]

/-- C8: with all trials successful and synthetic speeds v (v 1 being the
calibration speed and v k the speed of the trial at thread count k), the
sweep terminates whenever the speed sequence strictly decreases at two
consecutive trials, and runs unboundedly (never finishes, for any fuel)
whenever no two consecutive trials both regress. -/
theorem sweep_stopping_rule (v : ℕ → ℚ) :
    ((∃ n, 1 ≤ n ∧ v (n + 1) < v n ∧ v (n + 2) < v (n + 1)) →
        ∃ fuel r, testDriveWrite (okTrial v) (v 1) fuel = some r)
      ∧ ((∀ n, 1 ≤ n → v (n + 1) < v n → ¬ v (n + 2) < v (n + 1)) →
        ∀ fuel, testDriveWrite (okTrial v) (v 1) fuel = none) := by
  have hinit : sweepStates v 0 = (⟨0, 2, v 1⟩ : SweepState) := rfl
  constructor
  · rintro ⟨n, hn, hr1, hr2⟩
    obtain ⟨m, rfl⟩ : ∃ m, n = m + 1 := ⟨n - 1, by omega⟩
    have hr1' : v (m + 2) < v (m + 1) := hr1
    have hr2' : v (m + 1 + 2) < v (m + 1 + 1) := hr2
    have h1 : (sweepStates v (m + 1)).slowTests = (sweepStates v m).slowTests + 1 := by
      rw [sweepStates_slow_succ v m, if_pos hr1']
    have h2 : (sweepStates v (m + 2)).slowTests = (sweepStates v (m + 1)).slowTests + 1 := by
      rw [sweepStates_slow_succ v (m + 1), if_pos hr2']
    have hge : g_maxSlowTests ≤ (sweepStates v (m + 2)).slowTests := by
      rw [h2, h1]
      unfold g_maxSlowTests
      omega
    have hex : ∃ i, g_maxSlowTests ≤ (sweepStates v i).slowTests := ⟨m + 2, hge⟩
    have hi0 : g_maxSlowTests ≤ (sweepStates v (Nat.find hex)).slowTests := Nat.find_spec hex
    have hbefore : ∀ j, j < Nat.find hex → (sweepStates v j).slowTests < g_maxSlowTests :=
      fun j hj => Nat.not_le.mp (Nat.find_min hex hj)
    refine ⟨Nat.find hex + 1, (sweepStates v (Nat.find hex)).threadsCount - 1, ?_⟩
    unfold testDriveWrite
    rw [← hinit]
    rw [sweepLoop_advance v (Nat.find hex) hbefore 1]
    exact sweepLoop_exit _ _ (Nat.not_lt.mpr hi0) 0
  · intro hnone fuel
    have hinv : ∀ i, (sweepStates v i).slowTests ≤ 1
        ∧ ((sweepStates v i).slowTests = 1 → 1 ≤ i ∧ v (i + 1) < v i) := by
      intro i
      induction i with
      | zero => exact ⟨Nat.zero_le 1, fun h => absurd h (by simp [sweepStates])⟩
      | succ i ih =>
        by_cases hreg : v (i + 2) < v (i + 1)
        · have hzero : (sweepStates v i).slowTests = 0 := by
            rcases Nat.lt_or_ge (sweepStates v i).slowTests 1 with h | h
            · omega
            · have h1 : (sweepStates v i).slowTests = 1 := le_antisymm ih.1 h
              obtain ⟨hi1, hreg0⟩ := ih.2 h1
              exact absurd hreg (hnone i hi1 hreg0)
          have hs : (sweepStates v (i + 1)).slowTests = 1 := by
            rw [sweepStates_slow_succ v i, if_pos hreg, hzero]
          exact ⟨by omega, fun _ => ⟨by omega, hreg⟩⟩
        · have hs : (sweepStates v (i + 1)).slowTests = 0 := by
            rw [sweepStates_slow_succ v i, if_neg hreg]
          exact ⟨by omega, fun h => absurd h (by omega)⟩
    have hallslow : ∀ i, (sweepStates v i).slowTests < g_maxSlowTests := by
      intro i
      have := (hinv i).1
      unfold g_maxSlowTests
      omega
    have hrun : ∀ fuel i, sweepLoop (okTrial v) fuel (sweepStates v i) = none := by
      intro f
      induction f with
      | zero => intro i; rfl
      | succ f ih =>
        intro i
        rw [sweepLoop_succ_ok (okTrial v) f (sweepStates v i) (v (2 + i)) (hallslow i)
          (by simp only [okTrial]; rw [sweepStates_threadsCount v i])]
        exact ih (i + 1)
    unfold testDriveWrite
    rw [← hinit]
    exact hrun fuel 0

/-- Witness for C8: a strictly decreasing speed sequence regresses at trials
2 and 3, so the sweep terminates. -/
theorem sweep_stopping_rule_witness :
    ∃ fuel r, testDriveWrite (okTrial decSpeeds) (decSpeeds 1) fuel = some r :=
  (sweep_stopping_rule decSpeeds).1
    ⟨1, le_rfl, by norm_num [decSpeeds], by norm_num [decSpeeds]⟩

end StorageMeter
